import Mathlib

/-!
Verification of the TransitLens data pipeline.

This file gives a shallow embedding of the repository's core data logic:

* `clean_raw_data` (src/utils.py): column-wise normalization of the raw
  Presto CSV export — strict date parsing with pandas' strptime regexes for
  the fixed format `%m/%d/%Y %I:%M:%S %p`, the whole-frame value remap
  `{Zone17 → Aldershot GO, Zone20 → Square One, Zone27 → University of
  Waterloo}`, the derived calendar columns, and the `Amount_Clean` column
  obtained by deleting every `-` and `$` character and converting the rest
  with python float semantics (which also accepts `nan`, `inf` and
  exponents, so `Amount_Clean` can be `NaN`).
* the aggregations the pages build on top of the normalized table:
  `monthly_spending` and `get_spendings_data` (monthly sums),
  `day_counts` / `day_spending` (weekday buckets), `tripPairs` /
  `pairCounts` (same-day consecutive trip sequences), and `applyFilters`
  (the Data Explorer's date-range / agency / location-search filter, whose
  location leg is a case-insensitive regular-expression search).

Machine floats are modelled by `PyFloat`: exact rational finite values
plus `NaN` and the two infinities, with IEEE-style addition and the
pandas skip-`NaN` summation; timestamps are explicit calendar components.
-/

/-- One row of the raw CSV export, restricted to the four columns the
pipeline keeps: `Date`, `Location`, `Amount`, `Transit Agency`. -/
structure RawRecord where
  date : String
  location : String
  amount : String
  agency : String
deriving DecidableEq, Repr

/-- A parsed timestamp, as calendar components (pandas `Timestamp`). -/
structure DateTime where
  year : Nat
  month : Nat
  day : Nat
  hour : Nat
  minute : Nat
  second : Nat
deriving DecidableEq, Repr

/-- A calendar date (the `Date_Only` column, python `datetime.date`). -/
structure DateOnly where
  year : Nat
  month : Nat
  day : Nat
deriving DecidableEq, Repr

/-- A python float as `astype(float)` can produce it: an exact finite
value (modelled as a rational — the decimal strings at hand are exact),
either infinity, or `NaN`.  `NaN` is what a missing amount cell or a
literal `nan` string becomes, and it flows into `Amount_Clean` without
failing the load. -/
inductive PyFloat where
  | finite : Rat → PyFloat
  | posinf : PyFloat
  | neginf : PyFloat
  | nan : PyFloat
deriving DecidableEq, Repr

/-- IEEE-style addition on `PyFloat`: `NaN` absorbs, opposite infinities
give `NaN`, an infinity absorbs finite values, finite values add
exactly. -/
def PyFloat.add : PyFloat → PyFloat → PyFloat
  | nan, _ => nan
  | _, nan => nan
  | posinf, neginf => nan
  | neginf, posinf => nan
  | posinf, _ => posinf
  | _, posinf => posinf
  | neginf, _ => neginf
  | _, neginf => neginf
  | finite a, finite b => finite (a + b)

instance (n : Nat) : OfNat PyFloat n := ⟨.finite n⟩

instance : OfScientific PyFloat :=
  ⟨fun m e b => .finite (OfScientific.ofScientific m e b)⟩

instance : Add PyFloat := ⟨PyFloat.add⟩

instance : Zero PyFloat := ⟨.finite 0⟩

instance : AddCommMonoid PyFloat where
  add := PyFloat.add
  zero := .finite 0
  add_assoc := by
    intro a b c
    show PyFloat.add (PyFloat.add a b) c = PyFloat.add a (PyFloat.add b c)
    cases a <;> cases b <;> cases c <;> simp [PyFloat.add, add_assoc]
  zero_add := by
    intro a
    show PyFloat.add (.finite 0) a = a
    cases a <;> simp [PyFloat.add]
  add_zero := by
    intro a
    show PyFloat.add a (.finite 0) = a
    cases a <;> simp [PyFloat.add]
  add_comm := by
    intro a b
    show PyFloat.add a b = PyFloat.add b a
    cases a <;> cases b <;> simp [PyFloat.add, add_comm]
  nsmul := nsmulRec

/-- A `PyFloat` that is a non-negative value (finite ≥ 0 or `+inf`);
`NaN` is not non-negative (every IEEE comparison with `NaN` is false). -/
def PyFloat.nonneg : PyFloat → Bool
  | finite q => decide (0 ≤ q)
  | posinf => true
  | neginf => false
  | nan => false

/-- A normalized row of the cleaned table produced by `clean_raw_data`. -/
structure Trip where
  date : DateTime
  location : String
  amount : String
  agency : String
  day_of_week : String
  hour : Nat
  month : String
  week : Nat
  year : Nat
  date_only : DateOnly
  amount_clean : PyFloat
deriving DecidableEq, Repr

/-- Gregorian leap year test. -/
def isLeap (y : Nat) : Bool :=
  (y % 4 == 0 && y % 100 != 0) || y % 400 == 0

/-- Number of days in a month (0 for a month index outside 1..12). -/
def daysInMonth (y m : Nat) : Nat :=
  if m = 1 then 31
  else if m = 2 then (if isLeap y then 29 else 28)
  else if m = 3 then 31
  else if m = 4 then 30
  else if m = 5 then 31
  else if m = 6 then 30
  else if m = 7 then 31
  else if m = 8 then 31
  else if m = 9 then 30
  else if m = 10 then 31
  else if m = 11 then 30
  else if m = 12 then 31
  else 0

/-- Sakamoto month offsets for the day-of-week formula (months 1..12). -/
def sakamotoOffset (m : Nat) : Nat :=
  [0, 3, 2, 5, 0, 3, 5, 1, 4, 6, 2, 4].getD (m - 1) 0

/-- Day of week of a calendar day in pandas' `dt.dayofweek` convention
(Monday = 0 .. Sunday = 6), by Sakamoto's method. -/
def pdDowOf (y m d : Nat) : Nat :=
  let y' := if m < 3 then y - 1 else y
  ((y' + y' / 4 - y' / 100 + y' / 400 + sakamotoOffset m + d) + 6) % 7

/-- Day of week of a timestamp, Monday = 0 .. Sunday = 6. -/
def pdDow (dt : DateTime) : Nat :=
  pdDowOf dt.year dt.month dt.day

/-- The fixed weekday domain used by the pages, Monday first
(`day_order` in Travel Patterns and Spending Insights). -/
def day_order : List String :=
  ["Monday", "Tuesday", "Wednesday", "Thursday", "Friday", "Saturday", "Sunday"]

/-- Full English day name of a timestamp (pandas `dt.day_name()`). -/
def dayNameOf (dt : DateTime) : String :=
  day_order.getD (pdDow dt) ""

/-- Decimal digit character. -/
def digitChar (n : Nat) : Char :=
  Char.ofNat (48 + n)

/-- The `Month` column string `YYYY-MM`
(pandas `dt.to_period("M").astype(str)`). -/
def fmtMonth (y m : Nat) : String :=
  ⟨[digitChar (y / 1000 % 10), digitChar (y / 100 % 10),
    digitChar (y / 10 % 10), digitChar (y % 10), '-',
    digitChar (m / 10 % 10), digitChar (m % 10)]⟩

/-- Ordinal day of the year (1-based). -/
def dayOfYear (y m d : Nat) : Nat :=
  ((List.range (m - 1)).map (fun i => daysInMonth y (i + 1))).sum + d

/-- Number of ISO weeks in a year: 53 iff Jan 1 is a Thursday, or the year
is leap and Jan 1 is a Wednesday; else 52. -/
def isoWeeksInYear (y : Nat) : Nat :=
  if pdDowOf y 1 1 = 3 ∨ (isLeap y ∧ pdDowOf y 1 1 = 2) then 53 else 52

/-- ISO-8601 week number (the `Week` column,
pandas `dt.isocalendar().week`). -/
def isoWeek (dt : DateTime) : Nat :=
  let isoDow := pdDow dt + 1
  let w := (dayOfYear dt.year dt.month dt.day + 10 - isoDow) / 7
  if w = 0 then isoWeeksInYear (dt.year - 1)
  else if isoWeeksInYear dt.year < w then 1
  else w

/-- Value of a decimal digit character, if it is one. -/
def digitVal (c : Char) : Option Nat :=
  if '0' ≤ c ∧ c ≤ '9' then some (c.toNat - 48) else none

/-- Greedy one-or-two-digit numeric field, as in Python's strptime
regexes: the two-digit branch is taken when its digit pair is admissible
for the field, otherwise the one-digit branch when the single digit is;
a following literal can never force extra backtracking for the fixed
format used here, since each field is followed by a non-digit literal. -/
def field2or1 (twoOk : Nat → Nat → Bool) (oneOk : Nat → Bool) :
    List Char → Option (Nat × List Char)
  | c1 :: c2 :: rest =>
    match digitVal c1, digitVal c2 with
    | some d1, some d2 =>
      if twoOk d1 d2 then some (d1 * 10 + d2, rest)
      else if oneOk d1 then some (d1, c2 :: rest)
      else none
    | some d1, none =>
      if oneOk d1 then some (d1, c2 :: rest) else none
    | none, _ => none
  | [c1] =>
    match digitVal c1 with
    | some d1 => if oneOk d1 then some (d1, []) else none
    | none => none
  | [] => none

/-- strptime `%m` / `%I`: regex `1[0-2]|0[1-9]|[1-9]`. -/
def fieldMonth12 (cs : List Char) : Option (Nat × List Char) :=
  field2or1 (fun d1 d2 => (d1 == 1 && d2 ≤ 2) || (d1 == 0 && 1 ≤ d2))
    (fun d1 => 1 ≤ d1) cs

/-- strptime `%d`: regex `3[01]|[12]\d|0[1-9]|[1-9]`. -/
def fieldDay (cs : List Char) : Option (Nat × List Char) :=
  field2or1
    (fun d1 d2 => (d1 == 3 && d2 ≤ 1) || d1 == 1 || d1 == 2 || (d1 == 0 && 1 ≤ d2))
    (fun d1 => 1 ≤ d1) cs

/-- strptime `%M`: regex `[0-5]\d|\d`. -/
def fieldMinute (cs : List Char) : Option (Nat × List Char) :=
  field2or1 (fun d1 _ => d1 ≤ 5) (fun _ => true) cs

/-- strptime `%S`: regex `6[01]|[0-5]\d|\d` (leap seconds 60 and 61 pass
the regex but are rejected later by timestamp construction). -/
def fieldSecond (cs : List Char) : Option (Nat × List Char) :=
  field2or1 (fun d1 d2 => (d1 == 6 && d2 ≤ 1) || d1 ≤ 5) (fun _ => true) cs

/-- strptime `%Y`: exactly four digits. -/
def fieldYear (cs : List Char) : Option (Nat × List Char) :=
  match cs with
  | c1 :: c2 :: c3 :: c4 :: rest =>
    match digitVal c1, digitVal c2, digitVal c3, digitVal c4 with
    | some d1, some d2, some d3, some d4 =>
      some (d1 * 1000 + d2 * 100 + d3 * 10 + d4, rest)
    | _, _, _, _ => none
  | _ => none

/-- A literal character of the format string. -/
def expectChar (c : Char) : List Char → Option (List Char)
  | d :: rest => if d = c then some rest else none
  | [] => none

/-- Whitespace in a strptime format matches one or more whitespace
characters. -/
def expectSpaces : List Char → Option (List Char)
  | c :: rest =>
    if c.isWhitespace then some (rest.dropWhile Char.isWhitespace) else none
  | [] => none

/-- strptime `%p`: `AM` or `PM`, case-insensitively; returns `true` for PM. -/
def fieldAmPm : List Char → Option (Bool × List Char)
  | c1 :: c2 :: rest =>
    if c2.toLower = 'm' then
      if c1.toLower = 'a' then some (false, rest)
      else if c1.toLower = 'p' then some (true, rest)
      else none
    else none
  | _ => none

/-- Conversion of a 12-hour clock value and AM/PM flag to a 24-hour hour,
as in Python's `_strptime`. -/
def hourOf12 (i : Nat) (pm : Bool) : Nat :=
  if pm then (if i = 12 then 12 else i + 12)
  else (if i = 12 then 0 else i)

/-- Regex-level match of the whole string against the fixed format
`%m/%d/%Y %I:%M:%S %p`, yielding raw timestamp components. -/
def parseCore (cs : List Char) : Option DateTime := do
  let (mo, r1) ← fieldMonth12 cs
  let r2 ← expectChar '/' r1
  let (d, r3) ← fieldDay r2
  let r4 ← expectChar '/' r3
  let (y, r5) ← fieldYear r4
  let r6 ← expectSpaces r5
  let (i, r7) ← fieldMonth12 r6
  let r8 ← expectChar ':' r7
  let (mi, r9) ← fieldMinute r8
  let r10 ← expectChar ':' r9
  let (s, r11) ← fieldSecond r10
  let r12 ← expectSpaces r11
  let (pm, r13) ← fieldAmPm r12
  if r13 = [] then
    some ⟨y, mo, d, hourOf12 i pm, mi, s⟩
  else
    none

/-- Validity of the matched components as an actual pandas timestamp: a
real calendar day, seconds below 60, and a year inside the representable
`datetime64[ns]` range (approximated to whole years 1678..2261). -/
def validDT (dt : DateTime) : Bool :=
  1 ≤ dt.month && dt.month ≤ 12 &&
  1 ≤ dt.day && dt.day ≤ daysInMonth dt.year dt.month &&
  1678 ≤ dt.year && dt.year ≤ 2261 &&
  dt.hour ≤ 23 && dt.minute ≤ 59 && dt.second ≤ 59

/-- `pd.to_datetime(_, format="%m/%d/%Y %I:%M:%S %p")` on one value:
strptime regex match followed by timestamp construction. -/
def parseDate (s : String) : Option DateTime :=
  (parseCore s.data).bind (fun dt => if validDT dt then some dt else none)

/-- The whole-frame value remap `df.replace({...})`: a cell equal to a
zone synonym is rewritten, every other value is untouched. -/
def remap (s : String) : String :=
  if s = "Zone17" then "Aldershot GO"
  else if s = "Zone20" then "Square One"
  else if s = "Zone27" then "University of Waterloo"
  else s

/-- Deletion of every `-` and `$` character
(`.str.replace("-", "").str.replace("$", "")`). -/
def stripSigns (s : String) : String :=
  ⟨s.data.filter (fun c => !(c == '-' || c == '$'))⟩

/-- Value of a digit list read as a decimal natural number. -/
def natOfDigits (ds : List Nat) : Nat :=
  ds.foldl (fun acc d => acc * 10 + d) 0

/-- Longest digit prefix of a character list. -/
def digitsPrefix (cs : List Char) : List Char :=
  cs.takeWhile (fun c => (digitVal c).isSome)

/-- What remains after the longest digit prefix. -/
def digitsRest (cs : List Char) : List Char :=
  cs.dropWhile (fun c => (digitVal c).isSome)

/-- Value of a digit character list as a rational. -/
def decNat (ds : List Char) : Rat :=
  (natOfDigits (ds.filterMap digitVal) : Rat)

/-- Strip of leading and trailing whitespace (python `float()` accepts
surrounding whitespace). -/
def trimWs (cs : List Char) : List Char :=
  ((cs.dropWhile Char.isWhitespace).reverse.dropWhile Char.isWhitespace).reverse

/-- Exponent digits: at least one digit and nothing after them. -/
def parseExpNat (cs : List Char) : Option Nat :=
  if cs ≠ [] ∧ digitsRest cs = [] then
    some (natOfDigits (cs.filterMap digitVal))
  else none

/-- Optionally signed exponent after `e`/`E`. -/
def parseExpInt : List Char → Option Int
  | '+' :: r => (parseExpNat r).map Int.ofNat
  | '-' :: r => (parseExpNat r).map (fun n => -(n : Int))
  | r => (parseExpNat r).map Int.ofNat

/-- Exact value of a decimal mantissa `intDs.fracDs`. -/
def mantissaVal (intDs fracDs : List Char) : Rat :=
  decNat intDs + decNat fracDs / (10 : Rat) ^ fracDs.length

/-- A mantissa followed by an optional `e`/`E` exponent; at least one
digit must be present in the mantissa. -/
def parseAfterDigits (intDs fracDs rest : List Char) : Option Rat :=
  if intDs = [] ∧ fracDs = [] then none
  else
    match rest with
    | [] => some (mantissaVal intDs fracDs)
    | c :: r2 =>
      if c = 'e' ∨ c = 'E' then
        (parseExpInt r2).map (fun e => mantissaVal intDs fracDs * (10 : Rat) ^ e)
      else none

/-- Unsigned decimal numeral `digits[.digits][exp]` (either digit group
may be empty, not both), as python's float grammar accepts it. -/
def parseDecimal (cs : List Char) : Option Rat :=
  match digitsRest cs with
  | '.' :: r2 =>
    parseAfterDigits (digitsPrefix cs) (digitsPrefix r2) (digitsRest r2)
  | r1 => parseAfterDigits (digitsPrefix cs) [] r1

/-- The body of python `float()` after the optional sign: `inf` /
`infinity`, `nan` (case-insensitive), or a decimal numeral. -/
def parseUnsigned (neg : Bool) (r : List Char) : Option PyFloat :=
  if r.map Char.toLower = ['i', 'n', 'f'] ∨
      r.map Char.toLower = ['i', 'n', 'f', 'i', 'n', 'i', 't', 'y'] then
    some (if neg then PyFloat.neginf else PyFloat.posinf)
  else if r.map Char.toLower = ['n', 'a', 'n'] then
    some PyFloat.nan
  else
    (parseDecimal r).map (fun q => PyFloat.finite (if neg then -q else q))

/-- Python `float()` on a string: optional surrounding whitespace, an
optional sign, then `inf`/`infinity`, `nan`, or a decimal numeral with
an optional exponent.  Finite values are kept as exact rationals (no
rounding and no overflow to infinity); numeric underscores (`1_0`) are
outside the modelled fragment. -/
def parseFloat (cs0 : List Char) : Option PyFloat :=
  match trimWs cs0 with
  | '+' :: r => parseUnsigned false r
  | '-' :: r => parseUnsigned true r
  | r => parseUnsigned false r

/-- `Amount_Clean` of one (already remapped) amount cell. -/
def parseAmount (s : String) : Option PyFloat :=
  parseFloat (stripSigns s).data

/-- Error-propagating map, the per-column semantics of the fallible
pandas conversions (`to_datetime`, `astype(float)`): the first failing
cell aborts the whole column. -/
def mapE (f : α → Except String β) : List α → Except String (List β)
  | [] => .ok []
  | a :: as =>
    match f a with
    | .error e => .error e
    | .ok b =>
      match mapE f as with
      | .error e => .error e
      | .ok bs => .ok (b :: bs)

/-- Date column conversion for one row. -/
def dateCell (r : RawRecord) : Except String DateTime :=
  match parseDate r.date with
  | some dt => .ok dt
  | none => .error "time data does not match format"

/-- Amount column conversion for one row (the remap has already been
applied to the cell when this runs). -/
def amountCell (r : RawRecord) : Except String PyFloat :=
  match parseAmount (remap r.amount) with
  | some q => .ok q
  | none => .error "could not convert string to float"

/-- Assembly of one normalized row from its raw row, parsed date and
cleaned amount. -/
def mkTrip (r : RawRecord) (dt : DateTime) (q : PyFloat) : Trip :=
  { date := dt
    location := remap r.location
    amount := remap r.amount
    agency := remap r.agency
    day_of_week := dayNameOf dt
    hour := dt.hour
    month := fmtMonth dt.year dt.month
    week := isoWeek dt
    year := dt.year
    date_only := ⟨dt.year, dt.month, dt.day⟩
    amount_clean := q }

/-- Row-wise zip of the three parallel columns. -/
def buildTrips : List RawRecord → List DateTime → List PyFloat → List Trip
  | r :: rs, d :: ds, q :: qs => mkTrip r d q :: buildTrips rs ds qs
  | _, _, _ => []

/-- `clean_raw_data` (src/utils.py): parse the whole `Date` column (fail
fast), apply the value remap, clean the whole `Amount` column (fail
fast), and add the derived columns. -/
def clean_raw_data (raw : List RawRecord) : Except String (List Trip) :=
  match mapE dateCell raw with
  | .error e => .error e
  | .ok dates =>
    match mapE amountCell raw with
    | .error e => .error e
    | .ok amounts => .ok (buildTrips raw dates amounts)

/-- Chronological encoding of a calendar date (strictly monotone in the
lexicographic component order for the field ranges produced by parsing
and by python `date` objects). -/
def dateOnlyKey (d : DateOnly) : Nat :=
  (d.year * 16 + d.month) * 32 + d.day

/-- Chronological encoding of a timestamp. -/
def dateKey (dt : DateTime) : Nat :=
  ((((dt.year * 16 + dt.month) * 32 + dt.day) * 24 + dt.hour) * 60 + dt.minute) * 60
    + dt.second

/-- Insertion step of a stable insertion sort. -/
def insertBy (le : α → α → Bool) (a : α) : List α → List α
  | [] => [a]
  | b :: bs => if le a b then a :: b :: bs else b :: insertBy le a bs

/-- Stable insertion sort. -/
def sortBy (le : α → α → Bool) (l : List α) : List α :=
  l.foldr (insertBy le) []

/-- `df.sort_values("Date")`: the table in chronological order. -/
def sortByDate (ts : List Trip) : List Trip :=
  sortBy (fun a b => dateKey a.date ≤ dateKey b.date) ts

/-- The pairing loop of Route Analysis: each consecutive pair of rows of
the chronologically sorted table contributes a `(from, to)` location pair
when the two rows share `Date_Only` and differ in `Location`. -/
def consecPairs : List Trip → List (String × String)
  | a :: b :: rest =>
    (if a.date_only = b.date_only ∧ a.location ≠ b.location
      then [(a.location, b.location)] else [])
      ++ consecPairs (b :: rest)
  | _ => []

/-- Trip sequence extraction (src/pages/2, "Common Trip Sequences"):
sort by `Date`, then emit same-day consecutive location pairs. -/
def tripPairs (ts : List Trip) : List (String × String) :=
  consecPairs (sortByDate ts)

/-- Descending-count comparator used to rank pair counts. -/
def countGe (a b : (String × String) × Nat) : Bool :=
  b.2 ≤ a.2

/-- `pd.Series(trips).value_counts()` over the emitted pairs: occurrence
counts of the distinct pairs, ranked by descending count. -/
def pairCounts (l : List (String × String)) : List ((String × String) × Nat) :=
  sortBy countGe (l.dedup.map (fun k => (k, l.count k)))

/-- Lexicographic order on character lists (python string comparison on
the ASCII month keys). -/
def lexLe : List Char → List Char → Bool
  | [], _ => true
  | _ :: _, [] => false
  | c :: cs, d :: ds =>
    if c < d then true else if d < c then false else lexLe cs ds

/-- String comparison used by pandas when sorting group keys. -/
def strLe (a b : String) : Bool :=
  lexLe a.data b.data

/-- pandas sum of `Amount_Clean` over a selection, with the default
`skipna=True`: `NaN` entries are dropped and the rest added (an empty or
all-`NaN` selection sums to 0, as in pandas). -/
def amountSum (ts : List Trip) : PyFloat :=
  ((ts.filter (fun t => !(t.amount_clean == PyFloat.nan))).map
    (·.amount_clean)).sum

/-- `monthly_spending` (src/pages/3, line 59):
`df.groupby("Month")["Amount_Clean"].sum()` — one entry per observed
`Month` key in ascending key order, carrying the sum of `Amount_Clean`
over the rows with that key. -/
def monthly_spending (ts : List Trip) : List (String × PyFloat) :=
  (sortBy strLe (ts.map (·.month)).dedup).map
    (fun k => (k, amountSum (ts.filter (fun t => t.month == k))))

/-- Linear month index (months since year 0). -/
def monthIdx (y m : Nat) : Nat :=
  y * 12 + (m - 1)

/-- Year/month of a linear month index. -/
def ofMonthIdx (i : Nat) : Nat × Nat :=
  (i / 12, i % 12 + 1)

/-- `Date - pd.DateOffset(months=1)`: step one calendar month back,
clamping the day to the target month's length. -/
def dateMinusOneMonth (dt : DateTime) : DateTime :=
  let y' := if dt.month = 1 then dt.year - 1 else dt.year
  let m' := if dt.month = 1 then 12 else dt.month - 1
  { dt with year := y', month := m', day := min dt.day (daysInMonth y' m') }

/-- `get_spendings_data` (src/transit_tool.py): shift every `Date` one
month back, then group by `pd.Grouper(freq="M")` — calendar-month bins
spanning the full range from the earliest to the latest shifted date,
empty bins included with sum 0.  Bins are identified here by their
`(year, month)` pair. -/
def get_spendings_data (ts : List Trip) : List ((Nat × Nat) × PyFloat) :=
  match ts.map (fun t => monthIdx (dateMinusOneMonth t.date).year
      (dateMinusOneMonth t.date).month) with
  | [] => []
  | i :: is =>
    let lo := is.foldl min i
    let hi := is.foldl max i
    (List.range (hi + 1 - lo)).map (fun k =>
      (ofMonthIdx (lo + k),
        amountSum (ts.filter (fun t =>
          monthIdx (dateMinusOneMonth t.date).year
            (dateMinusOneMonth t.date).month == lo + k))))

/-- `day_counts` (src/pages/1, lines 39-40):
`value_counts().reindex(day_order).fillna(0)` — trip counts over the
fixed weekday domain, absent weekdays filled with 0. -/
def day_counts (ts : List Trip) : List (String × Nat) :=
  day_order.map (fun d => (d, ts.countP (fun t => t.day_of_week == d)))

/-- `day_spending` (src/pages/3, lines 135-136):
`groupby("Day_of_Week")["Amount_Clean"].sum().reindex(day_order)` — the
reindex inserts a missing value (`NaN`, modelled as `none`) for a weekday
with no trips; there is no `fillna(0)` here. -/
def day_spending (ts : List Trip) : List (String × Option PyFloat) :=
  day_order.map (fun d =>
    (d, if ts.filter (fun t => t.day_of_week == d) = [] then none
      else some (amountSum (ts.filter (fun t => t.day_of_week == d)))))

/-- One element of a regular-expression pattern, for the fragment of
Python `re` syntax modelled here: a literal character or the wildcard
`.` (every other metacharacter is out of the modelled fragment). -/
inductive PatChar where
  | dot : PatChar
  | lit : Char → PatChar
deriving DecidableEq, Repr

/-- Python `re` metacharacters that are outside the modelled fragment. -/
def isMetaChar (c : Char) : Bool :=
  c == '\\' || c == '^' || c == '$' || c == '*' || c == '+' || c == '?' ||
  c == '\x7b' || c == '\x7d' || c == '[' || c == ']' || c == '|' ||
  c == '(' || c == ')'

/-- Pattern compilation for the modelled fragment: `.` becomes the
wildcard, plain characters become literals, any other metacharacter makes
the pattern unsupported. -/
def parsePat : List Char → Option (List PatChar)
  | [] => some []
  | c :: cs =>
    if c = '.' then (parsePat cs).map (PatChar.dot :: ·)
    else if isMetaChar c then none
    else (parsePat cs).map (PatChar.lit c :: ·)

/-- Anchored match of a pattern against a prefix of the text, comparing
characters case-insensitively (`re.IGNORECASE`). -/
def matchesAt : List PatChar → List Char → Bool
  | [], _ => true
  | _ :: _, [] => false
  | pc :: ps, c :: cs =>
    (match pc with
      | .dot => true
      | .lit l => l.toLower == c.toLower) && matchesAt ps cs

/-- Unanchored search (`re.search`): the pattern matches at some start
position of the text. -/
def reSearch (p : List PatChar) : List Char → Bool
  | [] => matchesAt p []
  | c :: t => matchesAt p (c :: t) || reSearch p t

/-- The Data Explorer's filter widget state: a date range when the widget
holds two dates, an agency when the selection is not `"All"`, and the
location search text (inactive when empty). -/
structure Filters where
  dateRange : Option (DateOnly × DateOnly)
  agency : Option String
  locationSearch : String
deriving Repr

/-- The filter application of src/pages/4 (lines 60-75): successively
restrict the table by inclusive date range on `Date_Only`, agency
equality, and `str.contains(search, case=False, regex default)` on
`Location`.  The result is `none` only when the search text falls outside
the modelled regular-expression fragment. -/
def applyFilters (fs : Filters) (df : List Trip) : Option (List Trip) :=
  let f1 := match fs.dateRange with
    | some (s, e) => df.filter (fun t =>
        dateOnlyKey s ≤ dateOnlyKey t.date_only &&
        dateOnlyKey t.date_only ≤ dateOnlyKey e)
    | none => df
  let f2 := match fs.agency with
    | some a => f1.filter (fun t => t.agency == a)
    | none => f1
  if fs.locationSearch = "" then some f2
  else
    match parsePat fs.locationSearch.data with
    | some p => some (f2.filter (fun t => reSearch p t.location.data))
    | none => none

/-- Modelled from the spec: "case-insensitive substring match on
Location" — the lowered search text occurs as a contiguous substring of
the lowered location.  This is the spec-side predicate that the claim
attributes to the location filter, to be compared with the code's
regular-expression search. -/
def substrCI (pat s : String) : Prop :=
  (pat.data.map Char.toLower) <:+: (s.data.map Char.toLower)

instance (pat s : String) : Decidable (substrCI pat s) :=
  inferInstanceAs (Decidable ((pat.data.map Char.toLower) <:+: (s.data.map Char.toLower)))

/-- The pattern of a search string that contains no metacharacters:
every character matches literally. -/
def litPat (cs : List Char) : List PatChar :=
  cs.map PatChar.lit

/-- The date-range leg of the Data Explorer filter as a predicate
(inactive when the widget holds fewer than two dates). -/
def datePass (dr : Option (DateOnly × DateOnly)) (t : Trip) : Bool :=
  match dr with
  | some (s, e) =>
    dateOnlyKey s ≤ dateOnlyKey t.date_only &&
      dateOnlyKey t.date_only ≤ dateOnlyKey e
  | none => true

/-- The agency leg of the Data Explorer filter as a predicate
(inactive when the selection is `"All"`). -/
def agencyPass (ag : Option String) (t : Trip) : Bool :=
  match ag with
  | some a => t.agency == a
  | none => true

/-- The location-search leg of the Data Explorer filter as a predicate
(inactive when the search text is empty). -/
def locPass (op : Option (List PatChar)) (t : Trip) : Bool :=
  match op with
  | some p => reSearch p t.location.data
  | none => true

/-- The compiled location search of a filter set: `some none` when the
search text is empty (leg inactive), `some (some p)` when it compiles to
a pattern of the modelled fragment, `none` otherwise. -/
def parsedSearch (fs : Filters) : Option (Option (List PatChar)) :=
  if fs.locationSearch = "" then some none
  else (parsePat fs.locationSearch.data).map some

/-- Three raw rows in three consecutive months with amounts 10, 20, 30
(the spec's monthly-series example). -/
def exMonthRows : List RawRecord :=
  [⟨"01/10/2024 08:00:00 AM", "A", "$10.00", "GO"⟩,
   ⟨"02/10/2024 08:00:00 AM", "B", "$20.00", "GO"⟩,
   ⟨"03/10/2024 08:00:00 AM", "C", "$30.00", "GO"⟩]

/-- The normalized table of the three-month example. -/
def exMonthTrips : List Trip :=
  (clean_raw_data exMonthRows).toOption.getD []

/-- The two raw rows of the spec's end-to-end example, verbatim. -/
def exSpecRows : List RawRecord :=
  [⟨"01/05/2024 08:15:00 AM", "Zone17", "$3.25", "GO"⟩,
   ⟨"01/05/2024 17:40:00 PM", "Union Station", "-$3.25", "GO"⟩]

/-- The same two rows with the second timestamp written on the 12-hour
clock (`05:40:00 PM`), as the fixed format requires. -/
def exFixedRows : List RawRecord :=
  [⟨"01/05/2024 08:15:00 AM", "Zone17", "$3.25", "GO"⟩,
   ⟨"01/05/2024 05:40:00 PM", "Union Station", "-$3.25", "GO"⟩]

/-- The normalized table of the fixed example pair. -/
def exFixedTrips : List Trip :=
  (clean_raw_data exFixedRows).toOption.getD []

theorem mapE_ok_length {α β : Type} (f : α → Except String β) :
    ∀ (l : List α) (out : List β), mapE f l = .ok out → out.length = l.length := by
  intro l
  induction l with
  | nil =>
    intro out h
    simp only [mapE, Except.ok.injEq] at h
    simp [← h]
  | cons a as ih =>
    intro out h
    simp only [mapE] at h
    cases hfa : f a with
    | error e => rw [hfa] at h; exact absurd h (by simp)
    | ok b =>
      rw [hfa] at h
      cases hrest : mapE f as with
      | error e => rw [hrest] at h; exact absurd h (by simp)
      | ok bs =>
        rw [hrest] at h
        simp only [Except.ok.injEq] at h
        subst h
        simp [ih bs hrest]

theorem mapE_ok_forall {α β : Type} (f : α → Except String β) :
    ∀ (l : List α) (out : List β), mapE f l = .ok out →
      ∀ a ∈ l, ∃ b, f a = .ok b := by
  intro l
  induction l with
  | nil => intro out _ a ha; exact absurd ha (by simp)
  | cons a as ih =>
    intro out h x hx
    simp only [mapE] at h
    cases hfa : f a with
    | error e => rw [hfa] at h; exact absurd h (by simp)
    | ok b =>
      rw [hfa] at h
      cases hrest : mapE f as with
      | error e => rw [hrest] at h; exact absurd h (by simp)
      | ok bs =>
        rcases List.mem_cons.mp hx with rfl | hxs
        · exact ⟨b, hfa⟩
        · exact ih bs hrest x hxs

theorem mapE_ok_mem {α β : Type} (f : α → Except String β) :
    ∀ (l : List α) (out : List β), mapE f l = .ok out →
      ∀ b ∈ out, ∃ a ∈ l, f a = .ok b := by
  intro l
  induction l with
  | nil =>
    intro out h b hb
    simp only [mapE, Except.ok.injEq] at h
    subst h
    exact absurd hb (by simp)
  | cons a as ih =>
    intro out h b hb
    simp only [mapE] at h
    cases hfa : f a with
    | error e => rw [hfa] at h; exact absurd h (by simp)
    | ok b0 =>
      rw [hfa] at h
      cases hrest : mapE f as with
      | error e => rw [hrest] at h; exact absurd h (by simp)
      | ok bs =>
        rw [hrest] at h
        simp only [Except.ok.injEq] at h
        subst h
        rcases List.mem_cons.mp hb with rfl | hbs
        · exact ⟨a, by simp, hfa⟩
        · rcases ih bs hrest b hbs with ⟨a', ha', hfa'⟩
          exact ⟨a', by simp [ha'], hfa'⟩

theorem mapE_error_of_bad {α β : Type} (f : α → Except String β) :
    ∀ (l : List α), (∃ a ∈ l, ∀ b, f a ≠ .ok b) →
      ∃ e, mapE f l = .error e := by
  intro l
  induction l with
  | nil => rintro ⟨a, ha, _⟩; exact absurd ha (by simp)
  | cons a as ih =>
    rintro ⟨x, hx, hbad⟩
    cases hfa : f a with
    | error e => exact ⟨e, by simp [mapE, hfa]⟩
    | ok b =>
      rcases List.mem_cons.mp hx with rfl | hxs
      · exact absurd hfa (hbad b)
      · rcases ih ⟨x, hxs, hbad⟩ with ⟨e, he⟩
        exact ⟨e, by simp [mapE, hfa, he]⟩

theorem buildTrips_length :
    ∀ (rs : List RawRecord) (ds : List DateTime) (qs : List PyFloat),
      ds.length = rs.length → qs.length = rs.length →
      (buildTrips rs ds qs).length = rs.length := by
  intro rs
  induction rs with
  | nil => intro ds qs _ _; cases ds <;> cases qs <;> simp [buildTrips]
  | cons r rs ih =>
    intro ds qs hd hq
    cases ds with
    | nil => exact absurd hd (by simp)
    | cons d ds =>
      cases qs with
      | nil => exact absurd hq (by simp)
      | cons q qs =>
        simp only [List.length_cons, Nat.add_right_cancel_iff] at hd hq
        simp [buildTrips, ih ds qs hd hq]

theorem buildTrips_mem :
    ∀ (rs : List RawRecord) (ds : List DateTime) (qs : List PyFloat) (t : Trip),
      t ∈ buildTrips rs ds qs →
      ∃ r d q, r ∈ rs ∧ d ∈ ds ∧ q ∈ qs ∧ t = mkTrip r d q := by
  intro rs
  induction rs with
  | nil => intro ds qs t ht; simp [buildTrips] at ht
  | cons r rs ih =>
    intro ds qs t ht
    cases ds with
    | nil => simp [buildTrips] at ht
    | cons d ds =>
      cases qs with
      | nil => simp [buildTrips] at ht
      | cons q qs =>
        simp only [buildTrips, List.mem_cons] at ht
        rcases ht with rfl | ht
        · exact ⟨r, d, q, by simp, by simp, by simp, rfl⟩
        · rcases ih ds qs t ht with ⟨r', d', q', hr', hd', hq', heq⟩
          exact ⟨r', d', q', by simp [hr'], by simp [hd'], by simp [hq'], heq⟩

theorem buildTrips_forall₂ :
    ∀ (rs : List RawRecord) (ds : List DateTime) (qs : List PyFloat),
      ds.length = rs.length → qs.length = rs.length →
      List.Forall₂ (fun r t => ∃ d q, t = mkTrip r d q) rs (buildTrips rs ds qs) := by
  intro rs
  induction rs with
  | nil => intro ds qs _ _; cases ds <;> cases qs <;> simp [buildTrips]
  | cons r rs ih =>
    intro ds qs hd hq
    cases ds with
    | nil => exact absurd hd (by simp)
    | cons d ds =>
      cases qs with
      | nil => exact absurd hq (by simp)
      | cons q qs =>
        simp only [List.length_cons, Nat.add_right_cancel_iff] at hd hq
        exact List.Forall₂.cons ⟨d, q, rfl⟩ (ih ds qs hd hq)

theorem clean_ok_decomp (raw : List RawRecord) (ts : List Trip)
    (h : clean_raw_data raw = .ok ts) :
    ∃ ds qs, mapE dateCell raw = .ok ds ∧ mapE amountCell raw = .ok qs ∧
      ts = buildTrips raw ds qs := by
  unfold clean_raw_data at h
  cases hd : mapE dateCell raw with
  | error e => rw [hd] at h; exact absurd h (by simp)
  | ok ds =>
    rw [hd] at h
    cases hq : mapE amountCell raw with
    | error e => rw [hq] at h; exact absurd h (by simp)
    | ok qs =>
      rw [hq] at h
      simp only [Except.ok.injEq] at h
      exact ⟨ds, qs, rfl, rfl, h.symm⟩

theorem decNat_nonneg (ds : List Char) : 0 ≤ decNat ds := by
  unfold decNat
  exact_mod_cast Nat.cast_nonneg _

theorem mantissaVal_nonneg (a b : List Char) : 0 ≤ mantissaVal a b := by
  unfold mantissaVal
  refine add_nonneg (decNat_nonneg _) ?_
  exact div_nonneg (decNat_nonneg _) (pow_nonneg (by norm_num) _)

theorem parseAfterDigits_nonneg (a b r : List Char) (q : Rat)
    (h : parseAfterDigits a b r = some q) : 0 ≤ q := by
  unfold parseAfterDigits at h
  split at h
  · exact absurd h (by simp)
  · split at h
    · simp only [Option.some.injEq] at h
      subst h
      exact mantissaVal_nonneg _ _
    · split at h
      · rename_i r2 _
        cases he : parseExpInt r2 with
        | none => rw [he] at h; exact absurd h (by simp)
        | some e =>
          rw [he] at h
          have h2 : some (mantissaVal a b * (10 : Rat) ^ e) = some q := h
          injection h2 with h2
          subst h2
          exact mul_nonneg (mantissaVal_nonneg _ _) (zpow_nonneg (by norm_num) _)
      · exact absurd h (by simp)

theorem parseDecimal_nonneg (cs : List Char) (q : Rat)
    (h : parseDecimal cs = some q) : 0 ≤ q := by
  unfold parseDecimal at h
  split at h
  · exact parseAfterDigits_nonneg _ _ _ _ h
  · exact parseAfterDigits_nonneg _ _ _ _ h

theorem stripSigns_no_minus (s : String) : '-' ∉ (stripSigns s).data := by
  intro h
  have h2 := List.of_mem_filter (p := fun c => !(c == '-' || c == '$')) h
  simp at h2

theorem trimWs_mem {c : Char} {l : List Char} (h : c ∈ trimWs l) : c ∈ l := by
  unfold trimWs at h
  rw [List.mem_reverse] at h
  have h2 : c ∈ (l.dropWhile Char.isWhitespace).reverse :=
    List.Sublist.mem h (List.dropWhile_sublist _)
  rw [List.mem_reverse] at h2
  exact List.Sublist.mem h2 (List.dropWhile_sublist _)

theorem parseUnsigned_shape (r : List Char) (v : PyFloat)
    (h : parseUnsigned false r = some v) :
    v = PyFloat.nan ∨ v.nonneg = true := by
  unfold parseUnsigned at h
  split at h
  · simp only [Option.some.injEq] at h
    subst h
    right
    simp [PyFloat.nonneg]
  · split at h
    · simp only [Option.some.injEq] at h
      subst h
      left
      rfl
    · cases hd : parseDecimal r with
      | none => rw [hd] at h; exact absurd h (by simp)
      | some q =>
        rw [hd] at h
        have h2 : some (PyFloat.finite (if false then -q else q)) = some v := h
        injection h2 with h2
        subst h2
        right
        simp [PyFloat.nonneg, parseDecimal_nonneg r q hd]

theorem parseAmount_shape (s : String) (v : PyFloat)
    (h : parseAmount s = some v) :
    v = PyFloat.nan ∨ v.nonneg = true := by
  unfold parseAmount parseFloat at h
  split at h
  · exact parseUnsigned_shape _ _ h
  · rename_i r heq
    exfalso
    have hm : '-' ∈ trimWs (stripSigns s).data := by
      rw [heq]
      exact List.mem_cons_self _ _
    exact stripSigns_no_minus s (trimWs_mem hm)
  · exact parseUnsigned_shape _ _ h

theorem parseDate_valid (s : String) (dt : DateTime) (h : parseDate s = some dt) :
    validDT dt = true := by
  unfold parseDate at h
  cases hc : parseCore s.data with
  | none => rw [hc] at h; exact absurd h (by simp)
  | some dt0 =>
    rw [hc] at h
    simp only [Option.some_bind] at h
    split at h
    · simp only [Option.some.injEq] at h
      subst h
      assumption
    · exact absurd h (by simp)

theorem validDT_bounds (dt : DateTime) (h : validDT dt = true) :
    1 ≤ dt.month ∧ dt.month ≤ 12 ∧ 1678 ≤ dt.year ∧ dt.year ≤ 2261 := by
  simp only [validDT, Bool.and_eq_true, decide_eq_true_eq] at h
  exact ⟨h.1.1.1.1.1.1.1.1, h.1.1.1.1.1.1.1.2, h.1.1.1.1.2, h.1.1.1.2⟩

/-- C10: the Location synonym remap is idempotent — remapping an
already-remapped value leaves it unchanged, so applying the remap twice
yields the same result as applying it once. -/
theorem C10_remap_idempotent (s : String) : remap (remap s) = remap s := by
  by_cases h1 : s = "Zone17"
  · subst h1; decide
  · by_cases h2 : s = "Zone20"
    · subst h2; decide
    · by_cases h3 : s = "Zone27"
      · subst h3; decide
      · have hs : remap s = s := by simp [remap, h1, h2, h3]
        rw [hs]
        exact hs

/-- C1: a Date cell that does not parse under the fixed format is fatal
for the whole load — `clean_raw_data` returns an error and no table; and
whenever a table is returned it is full (one row per input row) with
every Date parsed. -/
theorem C1_fail_fast (raw : List RawRecord) :
    ((∃ r ∈ raw, parseDate r.date = none) → ∃ e, clean_raw_data raw = .error e)
    ∧ (∀ ts, clean_raw_data raw = .ok ts →
        ts.length = raw.length ∧ ∀ r ∈ raw, ∃ dt, parseDate r.date = some dt) := by
  constructor
  · rintro ⟨r, hr, hnone⟩
    have hbad : ∀ b, dateCell r ≠ .ok b := by
      intro b
      simp [dateCell, hnone]
    rcases mapE_error_of_bad dateCell raw ⟨r, hr, hbad⟩ with ⟨e, he⟩
    exact ⟨e, by unfold clean_raw_data; rw [he]⟩
  · intro ts h
    rcases clean_ok_decomp raw ts h with ⟨ds, qs, hd, hq, rfl⟩
    refine ⟨buildTrips_length raw ds qs (mapE_ok_length _ _ _ hd)
      (mapE_ok_length _ _ _ hq), ?_⟩
    intro r hr
    rcases mapE_ok_forall dateCell raw ds hd r hr with ⟨dt, hdt⟩
    refine ⟨dt, ?_⟩
    by_contra hne
    cases hp : parseDate r.date with
    | none => unfold dateCell at hdt; rw [hp] at hdt; exact absurd hdt (by simp)
    | some dt' =>
      unfold dateCell at hdt
      rw [hp] at hdt
      simp only [Except.ok.injEq] at hdt
      exact hne (by rw [hp, hdt])

/-- Witness for C1 at a concrete malformed export: the 12-hour format
rejects the hour `17`, and the load returns an error. -/
theorem C1_fail_fast_witness :
    ∃ e, clean_raw_data
      [⟨"01/05/2024 17:40:00 PM", "Zone17", "$3.25", "GO"⟩] = .error e :=
  (C1_fail_fast [⟨"01/05/2024 17:40:00 PM", "Zone17", "$3.25", "GO"⟩]).1
    ⟨⟨"01/05/2024 17:40:00 PM", "Zone17", "$3.25", "GO"⟩, by simp,
      by with_unfolding_all decide⟩

/-- C5 counterexample: `astype(float)` accepts the string `nan` (as it
does a missing amount cell), so normalization succeeds and the row's
`Amount_Clean` is `NaN` — which is not a non-negative number. -/
theorem C5_nan_amount_cex :
    (clean_raw_data
        [⟨"01/05/2024 08:15:00 AM", "Union Station", "nan", "GO"⟩]).toOption.map
        (fun ts => ts.map (·.amount_clean)) = some [PyFloat.nan] ∧
      PyFloat.nan.nonneg = false := by
  with_unfolding_all decide

/-- C5 amended: whenever normalization succeeds it yields exactly one
Trip per input row, and every row's `Amount_Clean` is either `NaN` or a
non-negative value (finite or `+inf`) — the deletion of every `-`
character makes a negative value impossible, but a `nan` amount cell
passes through as `NaN`, so `Amount_Clean` need not be a non-negative
number. -/
theorem C5_row_preservation_nan_or_nonneg (raw : List RawRecord) (ts : List Trip)
    (h : clean_raw_data raw = .ok ts) :
    ts.length = raw.length ∧
      ∀ t ∈ ts, t.amount_clean = PyFloat.nan ∨ t.amount_clean.nonneg = true := by
  rcases clean_ok_decomp raw ts h with ⟨ds, qs, hd, hq, rfl⟩
  refine ⟨buildTrips_length raw ds qs (mapE_ok_length _ _ _ hd)
    (mapE_ok_length _ _ _ hq), ?_⟩
  intro t ht
  rcases buildTrips_mem raw ds qs t ht with ⟨r, d, q, _, _, hqmem, rfl⟩
  rcases mapE_ok_mem amountCell raw qs hq q hqmem with ⟨a, _, hcell⟩
  have : parseAmount (remap a.amount) = some q := by
    cases hp : parseAmount (remap a.amount) with
    | none => unfold amountCell at hcell; rw [hp] at hcell; exact absurd hcell (by simp)
    | some q' =>
      unfold amountCell at hcell
      rw [hp] at hcell
      simp only [Except.ok.injEq] at hcell
      rw [hcell]
  exact parseAmount_shape _ _ this

/-- Witness for C5 amended on the fixed example pair: two rows in, two
trips out, both amounts `NaN`-free and non-negative. -/
theorem C5_row_preservation_nan_or_nonneg_witness :
    exFixedTrips.length = exFixedRows.length ∧
      ∀ t ∈ exFixedTrips,
        t.amount_clean = PyFloat.nan ∨ t.amount_clean.nonneg = true :=
  C5_row_preservation_nan_or_nonneg exFixedRows exFixedTrips
    (by with_unfolding_all rfl)

/-- C9 counterexample: the remap dictionary is applied to the whole
frame, not only to `Location` — a raw row whose `Transit Agency` cell is
exactly `"Zone17"` comes out with Agency `"Aldershot GO"`, so Agency is
not the raw value unchanged. -/
theorem C9_remap_not_location_only_cex :
    ((clean_raw_data
        [⟨"01/05/2024 08:15:00 AM", "Union Station", "$3.25", "Zone17"⟩]).toOption.getD
        []).map (·.agency) = ["Aldershot GO"] ∧
      ("Aldershot GO" : String) ≠ "Zone17" := by
  with_unfolding_all decide

/-- C9 amended: `df.replace` rewrites a cell in any of the three string
columns whose value exactly matches a zone key; Agency and Amount are
unchanged precisely when their raw values are not one of the three keys
(the parsed Date column is untouched by the remap). -/
theorem C9_remap_all_columns (raw : List RawRecord) (ts : List Trip)
    (h : clean_raw_data raw = .ok ts) :
    List.Forall₂ (fun (r : RawRecord) (t : Trip) =>
      t.location = remap r.location ∧ t.amount = remap r.amount ∧
        t.agency = remap r.agency) raw ts ∧
    ∀ s : String, s ≠ "Zone17" → s ≠ "Zone20" → s ≠ "Zone27" → remap s = s := by
  rcases clean_ok_decomp raw ts h with ⟨ds, qs, hd, hq, rfl⟩
  constructor
  · refine (buildTrips_forall₂ raw ds qs (mapE_ok_length _ _ _ hd)
      (mapE_ok_length _ _ _ hq)).imp ?_
    rintro r t ⟨d, q, rfl⟩
    exact ⟨rfl, rfl, rfl⟩
  · intro s h1 h2 h3
    simp [remap, h1, h2, h3]

/-- Witness for C9 amended on a concrete row: Location is remapped,
Amount and Agency pass through `remap` (and, not being keys, are
unchanged). -/
theorem C9_remap_all_columns_witness :
    List.Forall₂ (fun (r : RawRecord) (t : Trip) =>
      t.location = remap r.location ∧ t.amount = remap r.amount ∧
        t.agency = remap r.agency) exFixedRows exFixedTrips ∧
    ∀ s : String, s ≠ "Zone17" → s ≠ "Zone20" → s ≠ "Zone27" → remap s = s :=
  C9_remap_all_columns exFixedRows exFixedTrips (by with_unfolding_all rfl)

/-- C4 counterexample: on the spec's verbatim example pair, normalize
does not succeed — the second row's `17:40:00 PM` has no 12-hour match
under `%I`, so the whole load errors and no table is produced. -/
theorem C4_spec_example_rejected_cex :
    parseDate "01/05/2024 17:40:00 PM" = none ∧
      (clean_raw_data exSpecRows).toOption = none := by
  with_unfolding_all decide

set_option maxRecDepth 4000 in
/-- C4 amended: with the second timestamp written on the 12-hour clock
(`05:40:00 PM`), the example behaves exactly as the spec describes:
Locations `Aldershot GO` / `Union Station`, both `Amount_Clean` 3.25,
both days Friday, and sequence extraction yields the single pair
`(Aldershot GO, Union Station)` with count 1. -/
theorem C4_fixed_example :
    clean_raw_data exFixedRows = .ok exFixedTrips ∧
    exFixedTrips.map (·.location) = ["Aldershot GO", "Union Station"] ∧
    exFixedTrips.map (·.amount_clean) = [(3.25 : PyFloat), (3.25 : PyFloat)] ∧
    exFixedTrips.map (·.day_of_week) = ["Friday", "Friday"] ∧
    pairCounts (tripPairs exFixedTrips) =
      [(("Aldershot GO", "Union Station"), 1)] :=
  ⟨by with_unfolding_all rfl, by with_unfolding_all decide,
   by with_unfolding_all decide, by with_unfolding_all decide,
   by with_unfolding_all decide⟩

/-- C3 counterexample: with an inverted date range (end before start) the
Data Explorer filter neither raises nor reports anything — it silently
returns an ordinary (empty) result. -/
theorem C3_inverted_range_cex :
    applyFilters ⟨some (⟨2024, 2, 1⟩, ⟨2024, 1, 1⟩), none, ""⟩ exFixedTrips
        = some [] ∧
      exFixedTrips ≠ [] := by
  with_unfolding_all decide

/-- C3 amended: an inverted date range (end strictly before start) makes
the date predicate unsatisfiable, so the filter silently returns the
empty table — no crash and no usage error — and, the pipeline being
pure, the underlying table is untouched. -/
theorem C3_inverted_range_silent_empty (df : List Trip) (ag : Option String)
    (s e : DateOnly) (h : dateOnlyKey e < dateOnlyKey s) :
    applyFilters ⟨some (s, e), ag, ""⟩ df = some [] := by
  have h1 : df.filter (fun t =>
      dateOnlyKey s ≤ dateOnlyKey t.date_only &&
        dateOnlyKey t.date_only ≤ dateOnlyKey e) = [] := by
    rw [List.filter_eq_nil_iff]
    intro t _
    simp only [Bool.and_eq_true, decide_eq_true_eq, not_and]
    omega
  unfold applyFilters
  simp only [h1]
  cases ag with
  | none => simp
  | some a => simp

/-- Witness for C3 amended at a concrete inverted range over the example
table. -/
theorem C3_inverted_range_silent_empty_witness :
    applyFilters ⟨some (⟨2024, 2, 1⟩, ⟨2024, 1, 1⟩), some "GO", ""⟩
      exFixedTrips = some [] :=
  C3_inverted_range_silent_empty exFixedTrips (some "GO")
    ⟨2024, 2, 1⟩ ⟨2024, 1, 1⟩ (by decide)

theorem consecPairs_mem :
    ∀ (l : List Trip) (pr : String × String), pr ∈ consecPairs l →
      ∃ a b l1 l2, l = l1 ++ a :: b :: l2 ∧ a.date_only = b.date_only ∧
        a.location ≠ b.location ∧ pr = (a.location, b.location) := by
  intro l
  induction l with
  | nil => intro pr h; simp [consecPairs] at h
  | cons a rest ih =>
    cases rest with
    | nil => intro pr h; simp [consecPairs] at h
    | cons b rest2 =>
      intro pr h
      simp only [consecPairs, List.mem_append] at h
      rcases h with h1 | h2
      · split at h1
        · simp only [List.mem_singleton] at h1
          subst h1
          rename_i hcond
          exact ⟨a, b, [], rest2, rfl, hcond.1, hcond.2, rfl⟩
        · simp at h1
      · rcases ih pr h2 with ⟨x, y, l1, l2, heq, hd, hne, hpr⟩
        exact ⟨x, y, a :: l1, l2, by rw [List.cons_append, ← heq], hd, hne, hpr⟩

/-- C7: every pair emitted by sequence extraction arises from two rows
that are adjacent in the chronologically sorted table, share `Date_Only`,
and have distinct locations — so no emitted pair has equal endpoints and
no pair links two different calendar days. -/
theorem C7_pairs_adjacent_same_day (ts : List Trip) (pr : String × String)
    (h : pr ∈ tripPairs ts) :
    pr.1 ≠ pr.2 ∧ ∃ a b l1 l2, sortByDate ts = l1 ++ a :: b :: l2 ∧
      a.date_only = b.date_only ∧ a.location = pr.1 ∧ b.location = pr.2 := by
  rcases consecPairs_mem (sortByDate ts) pr h with ⟨a, b, l1, l2, heq, hd, hne, hpr⟩
  subst hpr
  exact ⟨hne, a, b, l1, l2, heq, hd, rfl, rfl⟩

set_option maxRecDepth 4000 in
/-- Witness for C7 at the emitted pair of the fixed example table. -/
theorem C7_pairs_adjacent_same_day_witness :
    (("Aldershot GO", "Union Station") : String × String).1 ≠
        ("Aldershot GO", "Union Station").2 ∧
      ∃ a b l1 l2, sortByDate exFixedTrips = l1 ++ a :: b :: l2 ∧
        a.date_only = b.date_only ∧
        a.location = (("Aldershot GO", "Union Station") : String × String).1 ∧
        b.location = (("Aldershot GO", "Union Station") : String × String).2 :=
  C7_pairs_adjacent_same_day exFixedTrips ("Aldershot GO", "Union Station")
    (by with_unfolding_all decide)

theorem sum_map_add {M : Type} [AddCommMonoid M] (l : List String)
    (f g : String → M) :
    (l.map (fun k => f k + g k)).sum = (l.map f).sum + (l.map g).sum := by
  induction l with
  | nil => simp
  | cons a l ih =>
    simp only [List.map_cons, List.sum_cons, ih]
    abel

theorem sum_map_zero {M : Type} [AddCommMonoid M] (l : List String) :
    (l.map (fun _ => (0 : M))).sum = 0 := by
  induction l with
  | nil => simp
  | cons a l ih => simp [ih]

theorem single_bucket_sum {M : Type} [AddCommMonoid M] (v : M) :
    ∀ (keys : List String), keys.Nodup → ∀ x ∈ keys,
      (keys.map (fun k => if x = k then v else 0)).sum = v := by
  intro keys
  induction keys with
  | nil => intro _ x hx; simp at hx
  | cons k ks ih =>
    intro hnd x hx
    rcases List.nodup_cons.mp hnd with ⟨hk, hks⟩
    simp only [List.map_cons, List.sum_cons]
    rcases List.mem_cons.mp hx with rfl | hxs
    · rw [if_pos rfl]
      have hz : (ks.map (fun k2 => if x = k2 then v else 0)).sum = 0 := by
        apply List.sum_eq_zero
        intro y hy
        rcases List.mem_map.mp hy with ⟨k2, hk2, rfl⟩
        rw [if_neg]
        intro heq
        exact hk (heq ▸ hk2)
      rw [hz, add_zero]
    · rw [if_neg, zero_add]
      · exact ih hks x hxs
      · intro heq
        exact hk (heq ▸ hxs)

theorem partition_filter_sum {M : Type} [AddCommMonoid M]
    (keys : List String) (hnd : keys.Nodup) (f : Trip → String) (g : Trip → M) :
    ∀ ts : List Trip, (∀ t ∈ ts, f t ∈ keys) →
      (keys.map (fun k => ((ts.filter (fun t => f t == k)).map g).sum)).sum
        = (ts.map g).sum := by
  intro ts
  induction ts with
  | nil =>
    intro _
    simp only [List.filter_nil, List.map_nil, List.sum_nil]
    exact sum_map_zero keys
  | cons t ts ih =>
    intro hall
    have hstep : ∀ k, (((t :: ts).filter (fun s => f s == k)).map g).sum
        = (if f t = k then g t else 0) + ((ts.filter (fun s => f s == k)).map g).sum := by
      intro k
      by_cases hk : f t = k
      · simp [List.filter_cons, hk]
      · simp [List.filter_cons, hk]
    have hmap : keys.map (fun k => (((t :: ts).filter (fun s => f s == k)).map g).sum)
        = keys.map (fun k => (if f t = k then g t else 0)
            + ((ts.filter (fun s => f s == k)).map g).sum) :=
      List.map_congr_left (fun k _ => hstep k)
    rw [hmap, sum_map_add keys _ _,
      single_bucket_sum (g t) keys hnd (f t) (hall t (by simp)),
      ih (fun s hs => hall s (by simp [hs])),
      List.map_cons, List.sum_cons]

theorem pdDow_lt (dt : DateTime) : pdDow dt < 7 := by
  unfold pdDow pdDowOf
  exact Nat.mod_lt _ (by norm_num)

theorem dayNameOf_mem (dt : DateTime) : dayNameOf dt ∈ day_order := by
  have h : ∀ k < 7, day_order.getD k "" ∈ day_order := by decide
  exact h _ (pdDow_lt dt)

theorem clean_ok_trip_props (raw : List RawRecord) (ts : List Trip)
    (h : clean_raw_data raw = .ok ts) :
    ∀ t ∈ ts, t.day_of_week ∈ day_order ∧
      t.month = fmtMonth t.date.year t.date.month ∧
      1 ≤ t.date.month ∧ t.date.month ≤ 12 ∧ t.date.year ≤ 9999 := by
  rcases clean_ok_decomp raw ts h with ⟨ds, qs, hd, hq, rfl⟩
  intro t ht
  rcases buildTrips_mem raw ds qs t ht with ⟨r, d, q, hr, hdmem, _, rfl⟩
  rcases mapE_ok_mem dateCell raw ds hd d hdmem with ⟨a, _, hcell⟩
  have hpd : parseDate a.date = some d := by
    cases hp : parseDate a.date with
    | none => unfold dateCell at hcell; rw [hp] at hcell; exact absurd hcell (by simp)
    | some d' =>
      unfold dateCell at hcell
      rw [hp] at hcell
      simp only [Except.ok.injEq] at hcell
      rw [hcell]
  rcases validDT_bounds d (parseDate_valid _ _ hpd) with ⟨h1, h2, _, h4⟩
  exact ⟨dayNameOf_mem d, rfl, h1, h2, by simp only [mkTrip]; omega⟩

theorem sum_map_one_trip (l : List Trip) :
    (l.map (fun _ => (1 : Nat))).sum = l.length := by
  induction l with
  | nil => simp
  | cons a l ih => simp [ih]; omega

theorem filter_filter_and (p q : Trip → Bool) (l : List Trip) :
    (l.filter p).filter q = l.filter (fun t => p t && q t) := by
  induction l with
  | nil => rfl
  | cons t ts ih =>
    by_cases hp : p t <;> by_cases hq : q t <;>
      simp [List.filter_cons, hp, hq, ih]

theorem filter_comm_trip (p q : Trip → Bool) (l : List Trip) :
    (l.filter p).filter q = (l.filter q).filter p := by
  rw [filter_filter_and, filter_filter_and]
  apply List.filter_congr
  intro t _
  exact Bool.and_comm _ _

/-- C6 amended: both weekday bucketings return exactly the 7 weekdays
Monday..Sunday; `day_counts` fills an absent weekday with 0 and its
bucket values sum to the row count, while `day_spending` marks an absent
weekday with a missing value (`NaN`, here `none`) rather than 0, and its
present bucket values sum to the total of `Amount_Clean`. -/
theorem C6_weekday_buckets (raw : List RawRecord) (ts : List Trip)
    (h : clean_raw_data raw = .ok ts) :
    (day_counts ts).map Prod.fst = day_order ∧
    (day_spending ts).map Prod.fst = day_order ∧
    (day_counts ts).length = 7 ∧
    (day_spending ts).length = 7 ∧
    (∀ d ∈ day_order, ts.countP (fun t => t.day_of_week == d) = 0 →
      (d, (0 : Nat)) ∈ day_counts ts ∧
        (d, (none : Option PyFloat)) ∈ day_spending ts) ∧
    ((day_counts ts).map (fun p => p.2)).sum = ts.length ∧
    ((day_spending ts).map (fun p => p.2.getD 0)).sum = amountSum ts := by
  have hmem : ∀ t ∈ ts, t.day_of_week ∈ day_order :=
    fun t ht => (clean_ok_trip_props raw ts h t ht).1
  have hnd : day_order.Nodup := by decide
  refine ⟨?_, ?_, ?_, ?_, ?_, ?_, ?_⟩
  · simp [day_counts, List.map_map, Function.comp_def]
  · simp [day_spending, List.map_map, Function.comp_def]
  · simp [day_counts, day_order]
  · simp [day_spending, day_order]
  · intro d hd hzero
    constructor
    · have hm : (d, ts.countP (fun t => t.day_of_week == d)) ∈ day_counts ts :=
        List.mem_map_of_mem _ hd
      rw [hzero] at hm
      exact hm
    · have hfil : ts.filter (fun t => t.day_of_week == d) = [] := by
        rw [← List.length_eq_zero, ← List.countP_eq_length_filter]
        exact hzero
      have hm : (d, if ts.filter (fun t => t.day_of_week == d) = [] then
          (none : Option PyFloat)
          else some (amountSum (ts.filter (fun t => t.day_of_week == d)))) ∈
          day_spending ts :=
        List.mem_map_of_mem _ hd
      rw [if_pos hfil] at hm
      exact hm
  · have h1 : (day_counts ts).map (fun p => p.2)
        = day_order.map (fun d => ts.countP (fun t => t.day_of_week == d)) := by
      simp [day_counts, List.map_map, Function.comp_def]
    have h2 : day_order.map (fun d => ts.countP (fun t => t.day_of_week == d))
        = day_order.map (fun d =>
            ((ts.filter (fun t => t.day_of_week == d)).map (fun _ => (1 : Nat))).sum) :=
      List.map_congr_left (fun d _ => by
        rw [List.countP_eq_length_filter, sum_map_one_trip])
    rw [h1, h2,
      partition_filter_sum day_order hnd (fun t => t.day_of_week)
        (fun _ => (1 : Nat)) ts hmem,
      sum_map_one_trip]
  · have h1 : (day_spending ts).map (fun p => p.2.getD 0)
        = day_order.map (fun d => amountSum (ts.filter (fun t => t.day_of_week == d))) := by
      simp only [day_spending, List.map_map]
      apply List.map_congr_left
      intro d _
      simp only [Function.comp_apply]
      by_cases hf : ts.filter (fun t => t.day_of_week == d) = []
      · rw [if_pos hf]
        simp [hf, amountSum]
      · rw [if_neg hf]
        simp
    have h2 : day_order.map
          (fun d => amountSum (ts.filter (fun t => t.day_of_week == d)))
        = day_order.map (fun d =>
            (((ts.filter (fun t => !(t.amount_clean == PyFloat.nan))).filter
                (fun t => t.day_of_week == d)).map (·.amount_clean)).sum) :=
      List.map_congr_left (fun d _ => by
        unfold amountSum
        rw [filter_comm_trip])
    rw [h1, h2]
    have hmem2 : ∀ t ∈ ts.filter (fun t => !(t.amount_clean == PyFloat.nan)),
        t.day_of_week ∈ day_order :=
      fun t ht => hmem t (List.mem_of_mem_filter ht)
    rw [partition_filter_sum day_order hnd (fun t => t.day_of_week)
      (fun t => t.amount_clean) _ hmem2]
    rfl

set_option maxRecDepth 4000 in
/-- C6 counterexample: on a table whose trips all fall on a Friday, the
weekday spending buckets carry a missing value (`NaN`, here `none`) for
the six absent weekdays — not the value 0 the claim asserts. -/
theorem C6_missing_weekday_not_zero_cex :
    day_spending exFixedTrips =
      [("Monday", none), ("Tuesday", none), ("Wednesday", none),
       ("Thursday", none), ("Friday", some (6.5 : PyFloat)), ("Saturday", none),
       ("Sunday", none)] ∧
    exFixedTrips ≠ [] := by
  with_unfolding_all decide

set_option maxRecDepth 4000 in
/-- Witness for C6 amended on the fixed example table. -/
theorem C6_weekday_buckets_witness :
    (day_counts exFixedTrips).map Prod.fst = day_order ∧
    (day_spending exFixedTrips).map Prod.fst = day_order ∧
    (day_counts exFixedTrips).length = 7 ∧
    (day_spending exFixedTrips).length = 7 ∧
    (∀ d ∈ day_order,
      exFixedTrips.countP (fun t => t.day_of_week == d) = 0 →
      (d, (0 : Nat)) ∈ day_counts exFixedTrips ∧
        (d, (none : Option PyFloat)) ∈ day_spending exFixedTrips) ∧
    ((day_counts exFixedTrips).map (fun p => p.2)).sum = exFixedTrips.length ∧
    ((day_spending exFixedTrips).map (fun p => p.2.getD 0)).sum
        = amountSum exFixedTrips :=
  C6_weekday_buckets exFixedRows exFixedTrips (by with_unfolding_all rfl)

theorem digitChar_inj :
    ∀ a, a < 10 → ∀ b, b < 10 → digitChar a = digitChar b → a = b := by
  decide

theorem fmtMonth_inj (y m y2 m2 : Nat) (hy : y ≤ 9999) (hy2 : y2 ≤ 9999)
    (hm : m ≤ 12) (hm2 : m2 ≤ 12) (h : fmtMonth y m = fmtMonth y2 m2) :
    y = y2 ∧ m = m2 := by
  rw [String.ext_iff] at h
  simp only [fmtMonth, List.cons.injEq, and_true] at h
  obtain ⟨h1, h2, h3, h4, _, h6, h7⟩ := h
  have e1 := digitChar_inj _ (by omega) _ (by omega) h1
  have e2 := digitChar_inj _ (by omega) _ (by omega) h2
  have e3 := digitChar_inj _ (by omega) _ (by omega) h3
  have e4 := digitChar_inj _ (by omega) _ (by omega) h4
  have e6 := digitChar_inj _ (by omega) _ (by omega) h6
  have e7 := digitChar_inj _ (by omega) _ (by omega) h7
  omega

theorem monthly_spending_mem (ts : List Trip) (k : String) (v : PyFloat)
    (hk : (k, v) ∈ monthly_spending ts) :
    v = amountSum (ts.filter (fun t => t.month == k)) := by
  unfold monthly_spending at hk
  rcases List.mem_map.mp hk with ⟨k0, _, heq⟩
  rcases Prod.mk.injEq .. ▸ heq with ⟨hk0, hv⟩
  rw [← hv, hk0]

/-- C2 amended: `monthly_spending` (groupby on the `Month` column) is the
calendar-month bucketing the claim describes — every bucket keyed by the
month string of a calendar month `(y, m)` carries exactly the sum of
`Amount_Clean` over the trips whose `Date` falls in that month. -/
theorem C2_monthly_spending_calendar (raw : List RawRecord) (ts : List Trip)
    (h : clean_raw_data raw = .ok ts) (y m : Nat) (hy : y ≤ 9999)
    (hm1 : 1 ≤ m) (hm2 : m ≤ 12) (v : PyFloat)
    (hk : (fmtMonth y m, v) ∈ monthly_spending ts) :
    v = amountSum (ts.filter (fun t =>
      t.date.year == y && t.date.month == m)) := by
  rw [monthly_spending_mem ts _ v hk]
  have hcong : ts.filter (fun t => t.month == fmtMonth y m)
      = ts.filter (fun t => t.date.year == y && t.date.month == m) := by
    apply List.filter_congr
    intro t ht
    rcases clean_ok_trip_props raw ts h t ht with ⟨_, hmon, hb1, hb2, hb3⟩
    rw [Bool.eq_iff_iff]
    simp only [beq_iff_eq, Bool.and_eq_true]
    constructor
    · intro he
      rw [hmon] at he
      exact fmtMonth_inj _ _ _ _ hb3 hy (by omega) (by omega) he
    · rintro ⟨hey, hem⟩
      rw [hmon, hey, hem]
  rw [hcong]

set_option maxRecDepth 4000 in
/-- C2 counterexample: `get_spendings_data` (the dashboard's monthly
series) shifts every date back one month before bucketing, so a trip
dated 2024-02 is carried by the bucket of 2024-01 — a bucket whose value
is not the sum over the trips of its own calendar month (there are none
in 2023-12 here, yet its bucket holds 10). -/
theorem C2_month_shift_cex :
    get_spendings_data exMonthTrips =
      [((2023, 12), 10), ((2024, 1), 20), ((2024, 2), 30)] ∧
    exMonthTrips.filter (fun t =>
      t.date.year == 2023 && t.date.month == 12) = [] := by
  with_unfolding_all decide

set_option maxRecDepth 4000 in
/-- Witness for C2 amended on the three-month example: the series is
`[10, 20, 30]` and the January bucket is exactly January's trips. -/
theorem C2_monthly_spending_calendar_witness :
    monthly_spending exMonthTrips =
      [("2024-01", 10), ("2024-02", 20), ("2024-03", 30)] ∧
    (10 : PyFloat) = amountSum (exMonthTrips.filter (fun t =>
      t.date.year == 2024 && t.date.month == 1)) :=
  ⟨by with_unfolding_all decide,
   C2_monthly_spending_calendar exMonthRows exMonthTrips
     (by with_unfolding_all rfl) 2024 1 (by omega) (by omega) (by omega) 10
     (by with_unfolding_all decide)⟩

theorem matchesAt_lit (q : List Char) :
    ∀ s : List Char, matchesAt (litPat q) s = true ↔
      (q.map Char.toLower) <+: (s.map Char.toLower) := by
  induction q with
  | nil => intro s; simp [litPat, matchesAt, List.nil_prefix]
  | cons c q ih =>
    intro s
    cases s with
    | nil => simp [litPat, matchesAt]
    | cons d s =>
      constructor
      · intro h
        simp only [litPat, List.map_cons, matchesAt, Bool.and_eq_true,
          beq_iff_eq] at h
        simp only [List.map_cons, List.cons_prefix_cons]
        exact ⟨h.1, (ih s).mp (by simpa [litPat] using h.2)⟩
      · intro h
        simp only [List.map_cons, List.cons_prefix_cons] at h
        simp only [litPat, List.map_cons, matchesAt, Bool.and_eq_true,
          beq_iff_eq]
        exact ⟨h.1, by simpa [litPat] using (ih s).mpr h.2⟩

theorem reSearch_lit (q : List Char) :
    ∀ s : List Char, reSearch (litPat q) s = true ↔
      (q.map Char.toLower) <:+: (s.map Char.toLower) := by
  intro s
  induction s with
  | nil => simp [reSearch, matchesAt_lit q, List.prefix_nil, List.infix_nil]
  | cons d s ih =>
    simp [reSearch, matchesAt_lit q, ih, List.infix_cons_iff]

/-- C8 amended: the Data Explorer filter returns exactly the rows
satisfying the conjunction of the active legs, where the location leg is
a case-insensitive regular-expression search (`str.contains` with its
default `regex=True`), not a plain substring test; with no active leg the
input is returned unchanged; and on a search string of plain literal
characters the regular-expression search coincides with the
case-insensitive substring match (`substrCI`). -/
theorem C8_filter_conjunction :
    (∀ (fs : Filters) (df : List Trip) (op : Option (List PatChar)),
      parsedSearch fs = some op →
      applyFilters fs df = some (df.filter (fun t =>
        (datePass fs.dateRange t && agencyPass fs.agency t) && locPass op t)))
    ∧ (∀ df : List Trip, applyFilters ⟨none, none, ""⟩ df = some df)
    ∧ (∀ pat s : String,
        (reSearch (litPat pat.data) s.data = true) ↔ substrCI pat s) := by
  refine ⟨?_, ?_, ?_⟩
  · rintro ⟨dr, ag, ls⟩ df op hop
    simp only [parsedSearch] at hop
    by_cases hls : ls = ""
    · subst hls
      rw [if_pos rfl] at hop
      injection hop with hop
      subst hop
      rcases dr with _ | ⟨s, e⟩ <;> rcases ag with _ | a <;>
        (unfold applyFilters; dsimp only; rw [if_pos rfl])
      · simp [datePass, agencyPass, locPass]
      · simp [datePass, agencyPass, locPass]
      · simp [datePass, agencyPass, locPass]
      · rw [filter_filter_and]
        simp [datePass, agencyPass, locPass]
    · rw [if_neg hls] at hop
      rcases hp : parsePat ls.data with _ | p
      · rw [hp] at hop
        exact absurd hop (by simp)
      · rw [hp] at hop
        have hop2 : some (some p) = some op := hop
        injection hop2 with hop2
        subst hop2
        rcases dr with _ | ⟨s, e⟩ <;> rcases ag with _ | a <;>
          (unfold applyFilters; dsimp only; rw [if_neg hls, hp]; dsimp only)
        · simp [datePass, agencyPass, locPass]
        · rw [filter_filter_and]
          simp [datePass, agencyPass, locPass]
        · rw [filter_filter_and]
          simp [datePass, agencyPass, locPass]
        · rw [filter_filter_and, filter_filter_and]
          simp [datePass, agencyPass, locPass, Bool.and_assoc]
  · intro df
    rfl
  · intro pat s
    exact reSearch_lit pat.data s.data

set_option maxRecDepth 4000 in
/-- C8 counterexample: the search string `.` is a regular expression
wildcard for `str.contains`, so the filter keeps both example rows even
though neither Location contains a literal `.` — the result is not the
subset selected by case-insensitive substring match. -/
theorem C8_regex_not_substring_cex :
    applyFilters ⟨none, none, "."⟩ exFixedTrips = some exFixedTrips ∧
    ¬ substrCI "." "Aldershot GO" ∧ ¬ substrCI "." "Union Station" := by
  refine ⟨by with_unfolding_all decide, by decide, by decide⟩

set_option maxRecDepth 4000 in
/-- Witness for C8 amended: a concrete filter set with the literal
search `go` applied to the example table. -/
theorem C8_filter_conjunction_witness :
    applyFilters ⟨none, none, "go"⟩ exFixedTrips =
      some (exFixedTrips.filter (fun t =>
        (datePass none t && agencyPass none t) &&
          locPass (some (litPat "go".data)) t)) :=
  C8_filter_conjunction.1 ⟨none, none, "go"⟩ exFixedTrips
    (some (litPat "go".data)) (by with_unfolding_all rfl)
